import Mathlib

/-!
Verification of the citation-graph auditor core (forge/): citation
extraction (`utils.extract_citations_from_text`,
`ArticleIngester._extract_citations`), source scoring
(`utils.calculate_reliability_score`, `utils.calculate_diversity_score`),
graph assembly (`CitationGraphBuilder.build_graph`) and graph analysis
(`GraphAnalyzer.analyze`).  Python strings are embedded as `List Char`,
Python floats as `ℚ`, dicts as structures or association lists, and the
analyzer's instance-level caches as an explicit state record.
-/

/-- Python strings are modelled as lists of characters. -/
abbrev Str := List Char

/-- Shorthand to turn a Lean string literal into the `Str` model. -/
def str (s : String) : Str := s.data

/-- Model of the library boundary `str.lower()` (ASCII case folding;
the inputs considered contain only ASCII). -/
def toLowerStr (s : Str) : Str := s.map Char.toLower

/-- The trailing-punctuation characters stripped by
`url.rstrip('.,;:!?)')` in `utils.extract_citations_from_text`. -/
def punctChars : List Char := ['.', ',', ';', ':', '!', '?', ')']

/-- Python `s.rstrip('.,;:!?)')`: remove every trailing character that
belongs to `punctChars`. -/
def rstripPunct (s : Str) : Str :=
  (s.reverse.dropWhile (fun c => c ∈ punctChars)).reverse

/-- Python `s.rstrip('/')` as used by `ArticleIngester._extract_citations`:
remove every trailing slash. -/
def rstripSlash (s : Str) : Str :=
  (s.reverse.dropWhile (fun c => c = '/')).reverse

/-- Python `s.strip()`: remove leading and trailing whitespace. -/
def wstrip (s : Str) : Str :=
  ((s.dropWhile Char.isWhitespace).reverse.dropWhile Char.isWhitespace).reverse

/-- Python `url.startswith(('http://', 'https://'))`. -/
def startsHttp (s : Str) : Bool :=
  (str "http://").isPrefixOf s || (str "https://").isPrefixOf s

/-- Python `needle in haystack` on strings (contiguous substring test). -/
def isSubList (needle haystack : Str) : Bool :=
  match haystack with
  | [] => needle.isEmpty
  | _ :: t => needle.isPrefixOf haystack || isSubList needle t

/-- First-seen-order deduplication, the key order produced by a Python
dict built with `d[k] = d.get(k, 0) + 1` (helper, seen-accumulator form). -/
def dedupAux [DecidableEq α] (seen : List α) : List α → List α
  | [] => []
  | x :: xs => if x ∈ seen then dedupAux seen xs else x :: dedupAux (x :: seen) xs

/-- Distinct elements of a list in first-seen order (`set(...)` sizes and
dict key order in the source). -/
def dedupKeys [DecidableEq α] (l : List α) : List α := dedupAux [] l

/-- Number of occurrences of `a` in `l` (the final value a Python counting
dict assigns to key `a`). -/
def occCount [DecidableEq α] (l : List α) (a : α) : Nat :=
  (l.filter (fun x => x = a)).length

/-- The counting dict `{k: count}` built by the source's counting loops,
as an association list in first-seen key order. -/
def countsOf [DecidableEq α] (l : List α) : List (α × Nat) :=
  (dedupKeys l).map (fun k => (k, occCount l k))

/-- Python `max(values)` over a list of naturals, with 0 for the empty
list (the source only applies it to non-empty collections). -/
def maxVal (l : List Nat) : Nat := l.foldl max 0

/-- First key of an association list attaining the maximal count:
`max(d.items(), key=lambda x: x[1])[0]`, which in Python returns the
first maximal item. `none` on the empty list. -/
def firstMaxKey (l : List (Str × Nat)) : Option Str :=
  (l.find? (fun p => p.2 = maxVal (l.map Prod.snd))).map Prod.fst

/-- Model of the library boundary `urllib.parse.urlparse`: the text after
the first `://` marker, if any (`netloc` together with everything that
follows it). -/
def afterSchemeMark : Str → Option Str
  | [] => none
  | c :: rest =>
    if (str "://").isPrefixOf (c :: rest) then some ((c :: rest).drop 3)
    else afterSchemeMark rest

/-- Model of the library boundary `urllib.parse.urlparse` as used by
`utils.extract_domain`: for a URL with a scheme the netloc is the segment
between `://` and the next `/`; a string without `://` parses as a bare
path and is returned whole.  Query/fragment splitting is not modelled
(the inputs considered carry neither). -/
def netlocOrPath (url : Str) : Str :=
  match afterSchemeMark url with
  | some rest => rest.takeWhile (fun c => c ≠ '/')
  | none => url

/-- Embedding of `utils.extract_domain`: netloc (or path) of the URL, lowercased. -/
def extract_domain (url : Str) : Str := toLowerStr (netlocOrPath url)

/-- Dot-separated labels of a domain (helper for the `tldextract` model). -/
def splitOnDot : Str → List Str
  | [] => [[]]
  | c :: rest =>
    let r := splitOnDot rest
    if c = '.' then [] :: r
    else
      match r with
      | h :: t => (c :: h) :: t
      | [] => [[c]]

/-- Model of the library boundary `tldextract.extract`, returning the
pair (registrable-domain label, public suffix).  The public-suffix list
is approximated by the last dot label (two or more labels) or the empty
suffix (single label); this agrees with `tldextract` on every input the
claims touch. -/
def tldSplit (d : Str) : Str × Str :=
  match (splitOnDot d).reverse with
  | suffix :: dom :: _ => (dom, suffix)
  | _ => (d, [])

/-- Embedding of `utils.normalize_domain`: `f"{ext.domain}.{ext.suffix}"` when both
parts are non-empty, otherwise the raw extracted domain. -/
def normalize_domain (url : Str) : Str :=
  let e := tldSplit (extract_domain url)
  if e.1 ≠ [] ∧ e.2 ≠ [] then e.1 ++ '.' :: e.2 else extract_domain url

/-- Embedding of `utils.calculate_diversity_score`: unique-domain fraction, scaled
down by half of the top-domain concentration.  Counting is keyed by
`normalize_domain` of each entry, exactly as in the source loop. -/
def calculate_diversity_score (domains : List Str) : ℚ :=
  if domains = [] then 0
  else
    let domain_counts := countsOf (domains.map normalize_domain)
    let total : Nat := domains.length
    let unique : Nat := domain_counts.length
    let diversity : ℚ := if 0 < total then (unique : ℚ) / (total : ℚ) else 0
    if domain_counts ≠ [] then
      diversity * (1 - (maxVal (domain_counts.map Prod.snd) : ℚ) / (total : ℚ) * (1 / 2))
    else diversity

/-- The hard-coded low-trust hosting substrings of
`utils.calculate_reliability_score`. -/
def suspiciousHosts : List Str :=
  [str "blogspot", str "wordpress", str "tumblr", str "wix"]

/-- Embedding of `utils.calculate_reliability_score`.  `config.py` is not under `src/`,
so the externally supplied tables (spec section 6) are parameters: `scores`
models `config.RELIABILITY_SCORES` (category to base score, default 0.5)
and `trusted` models `config.TRUSTED_DOMAINS` (a set of public suffixes).
The 0.1 bonus, the 0.2 penalty, the suspicious-substring list and the
final clamp are hard-coded in the source. -/
def calculate_reliability_score (scores : List (String × ℚ)) (trusted : List Str)
    (url : Str) (source_type : String) : ℚ :=
  let base_score : ℚ := ((scores.find? (fun p => p.1 = source_type)).map Prod.snd).getD (1 / 2)
  let base1 : ℚ :=
    if (tldSplit (extract_domain url)).2 ∈ trusted then base_score + 1 / 10 else base_score
  let domain := toLowerStr (extract_domain url)
  let base2 : ℚ :=
    if suspiciousHosts.any (fun s => isSubList s domain) then base1 - 2 / 10 else base1
  max 0 (min 1 base2)

/-- One regex match attempt of the markdown pattern
`\[([^\]]+)\]\(([^\)]+)\)` anchored at the head of `l`: the two capture
groups and the rest of the text after the match.  Greedy `[^\]]+` and
`[^\)]+` are forced runs up to the first `]` and `)` respectively. -/
def matchMdAt (l : Str) : Option (Str × Str × Str) :=
  match l with
  | '[' :: rest =>
    let g1 := rest.takeWhile (fun c => c ≠ ']')
    if g1 = [] then none
    else
      match rest.dropWhile (fun c => c ≠ ']') with
      | ']' :: '(' :: rest2 =>
        let g2 := rest2.takeWhile (fun c => c ≠ ')')
        if g2 = [] then none
        else
          match rest2.dropWhile (fun c => c ≠ ')') with
          | ')' :: rest3 => some (g1, g2, rest3)
          | _ => none
      | _ => none
  | _ => none

/-- Embedding of `re.finditer` over the markdown pattern: try a match at every
position, resume after each match.  `fuel` bounds the scan and is
instantiated with the text length, which a scan never exceeds. -/
def mdScan : Nat → Str → List (Str × Str)
  | 0, _ => []
  | _ + 1, [] => []
  | fuel + 1, c :: cs =>
    match matchMdAt (c :: cs) with
    | some (g1, g2, rest) => (g1, g2) :: mdScan fuel rest
    | none => mdScan fuel cs

/-- All matches of the markdown-link pattern in `text`, in order. -/
def mdMatches (text : Str) : List (Str × Str) := mdScan text.length text

/-- Case-insensitive literal prefix test (`re.IGNORECASE`); the needle is
given lowercase. -/
def ciStartsWith (needle hay : Str) : Bool :=
  toLowerStr (hay.take needle.length) = needle

/-- Quote characters matched by the `["\']` pieces of the HTML anchor
pattern (double quote and apostrophe). -/
def isQuoteChar (c : Char) : Bool := c = '"' || c = Char.ofNat 39

/-- Attempt the `href=["\']([^"\']+)["\']` part of the HTML anchor
pattern at the head of `sfx`, returning the URL capture group. -/
def tryHrefAt (sfx : Str) : Option Str :=
  if ciStartsWith (str "href=") sfx then
    match sfx.drop 5 with
    | q :: r1 =>
      if isQuoteChar q then
        let u := r1.takeWhile (fun c => ¬ isQuoteChar c)
        if u = [] then none
        else
          match r1.drop u.length with
          | q2 :: _ => if isQuoteChar q2 then some u else none
          | [] => none
      else none
    | [] => none
  else none

/-- Split point search for the greedy `[^>]+` before `href=` in the HTML
anchor pattern: scan the suffixes of `s` that start at index 1 or later
and keep the last position where `tryHrefAt` succeeds, matching the
backtracking order of the regex engine (longest `[^>]+` first). -/
def findHrefGo : Str → Option Str → Option Str
  | [], acc => acc
  | c :: cs, acc =>
    findHrefGo cs (match tryHrefAt (c :: cs) with | some u => some u | none => acc)

/-- Rest of the HTML anchor pattern after the closing quote:
`[^>]*>([^<]+)</a>` applied to `r2`, returning the link-text group and
the rest of the input after the whole match. -/
def matchAnchorTail (r2 : Str) : Option (Str × Str) :=
  match r2.dropWhile (fun c => c ≠ '>') with
  | '>' :: r3 =>
    let t := r3.takeWhile (fun c => c ≠ '<')
    if t = [] then none
    else
      match r3.drop t.length with
      | '<' :: '/' :: a :: '>' :: r4 => if a.toLower = 'a' then some (t, r4) else none
      | _ => none
  | _ => none

/-- One candidate split of the HTML anchor pattern with `[^>]+` of length
`k`: check `href=`, the quoted URL group, then the anchor tail. -/
def tryHtmlK (rest2 : Str) (k : Nat) : Option (Str × Str × Str) :=
  let sfx := rest2.drop k
  if ciStartsWith (str "href=") sfx then
    match sfx.drop 5 with
    | q :: r1 =>
      if isQuoteChar q then
        let u := r1.takeWhile (fun c => ¬ isQuoteChar c)
        if u = [] then none
        else
          match r1.drop u.length with
          | q2 :: r2 =>
            if isQuoteChar q2 then
              match matchAnchorTail r2 with
              | some (t, r4) => some (u, t, r4)
              | none => none
            else none
          | [] => none
      else none
    | [] => none
  else none

/-- Try the split points `k, k-1, ..., 1` in that order (regex
backtracking tries the longest `[^>]+` first). -/
def htmlKLoop (rest2 : Str) : Nat → Option (Str × Str × Str)
  | 0 => none
  | k + 1 =>
    match tryHtmlK rest2 (k + 1) with
    | some r => some r
    | none => htmlKLoop rest2 k

/-- One match attempt of the (case-insensitive) HTML anchor pattern
`<a[^>]+href=["\']([^"\']+)["\'][^>]*>([^<]+)</a>` anchored at the head
of `l`.  The `[^>]+` run is bounded by the first `>` after `<a`. -/
def matchHtmlAt (l : Str) : Option (Str × Str × Str) :=
  match l with
  | '<' :: a :: rest2 =>
    if a.toLower = 'a' then
      htmlKLoop rest2 (rest2.takeWhile (fun c => c ≠ '>')).length
    else none
  | _ => none

/-- Embedding of `re.finditer` over the HTML anchor pattern. -/
def htmlScan : Nat → Str → List (Str × Str)
  | 0, _ => []
  | _ + 1, [] => []
  | fuel + 1, c :: cs =>
    match matchHtmlAt (c :: cs) with
    | some (u, t, rest) => (u, t) :: htmlScan fuel rest
    | none => htmlScan fuel cs

/-- All matches of the HTML anchor pattern in `text`: the URL and
link-text capture groups, in order. -/
def htmlMatches (text : Str) : List (Str × Str) := htmlScan text.length text

/-- Characters allowed inside a bare URL by the character class
`[^\s<>"\'\)\[\]]` of the bare-URL pattern. -/
def bareUrlChar (c : Char) : Bool :=
  ¬ (c.isWhitespace ∨ c = '<' ∨ c = '>' ∨ c = '"' ∨ c = Char.ofNat 39 ∨
     c = ')' ∨ c = '[' ∨ c = ']')

/-- One match attempt of the bare-URL pattern
`https?://[^\s<>"\'\)\[\]]+` anchored at the head of `l`: the whole
match (group 0) and the rest of the text. -/
def matchBareAt (l : Str) : Option (Str × Str) :=
  if (str "https://").isPrefixOf l then
    let body := (l.drop 8).takeWhile bareUrlChar
    if body = [] then none else some (str "https://" ++ body, l.drop (8 + body.length))
  else if (str "http://").isPrefixOf l then
    let body := (l.drop 7).takeWhile bareUrlChar
    if body = [] then none else some (str "http://" ++ body, l.drop (7 + body.length))
  else none

/-- Embedding of `re.finditer` over the bare-URL pattern, tracking the absolute start
position of every match (the context heuristic of the third pass needs
`match.start()`). -/
def bareScan : Nat → Nat → Str → List (Nat × Str)
  | 0, _, _ => []
  | _ + 1, _, [] => []
  | fuel + 1, pos, c :: cs =>
    match matchBareAt (c :: cs) with
    | some (m, rest) => (pos, m) :: bareScan fuel (pos + m.length) rest
    | none => bareScan fuel (pos + 1) cs

/-- All matches of the bare-URL pattern in `text` with their start
positions, in order. -/
def bareMatches (text : Str) : List (Nat × Str) := bareScan text.length 0 text

/-- Total number of raw regex matches of the three citation patterns in
`text` (the bound of spec section 8: `len(dedupedCitations) ≤
len(rawMatches)`). -/
def rawMatchCount (text : Str) : Nat :=
  (mdMatches text).length + (htmlMatches text).length + (bareMatches text).length

/-- A citation dict produced by `utils.extract_citations_from_text`:
keys `text`, `url` and `type`. -/
structure TextCitation where
  text : Str
  url : Str
  ctype : String
deriving DecidableEq

/-- The shared dedup loop of `utils.extract_citations_from_text`: for
each raw match, `f` performs the per-pass filtering and URL
normalization; a candidate whose normalized URL is already in
`seen_urls` is dropped, otherwise it is appended and its URL recorded.
Returns the emitted citations and the final seen set. -/
def dedupFold (f : α → Option TextCitation) :
    List α → List Str → List TextCitation × List Str
  | [], seen => ([], seen)
  | a :: rest, seen =>
    match f a with
    | none => dedupFold f rest seen
    | some c =>
      if c.url ∈ seen then dedupFold f rest seen
      else
        let p := dedupFold f rest (c.url :: seen)
        (c :: p.1, p.2)

/-- First-pass candidate filter of `utils.extract_citations_from_text`:
a markdown match `(group1, group2)` becomes a citation when the stripped
URL starts with an explicit http(s) scheme; the stored URL is the
punctuation-stripped form. -/
def mdCandidate (m : Str × Str) : Option TextCitation :=
  let url := wstrip m.2
  if startsHttp url then some ⟨m.1, rstripPunct url, "markdown"⟩ else none

/-- Second-pass candidate filter: an HTML match `(url group, text group)`
with the same scheme check and normalization; the stored link text is
stripped. -/
def htmlCandidate (m : Str × Str) : Option TextCitation :=
  let url := wstrip m.1
  if startsHttp url then some ⟨wstrip m.2, rstripPunct url, "html"⟩ else none

/-- Third-pass candidate filter: a bare match at position `start` is
dropped when the ten characters before it contain `](` or (lowercased)
`<a`; otherwise the punctuation-stripped match is both the text and the
URL of the citation. -/
def bareCandidate (text : Str) (m : Nat × Str) : Option TextCitation :=
  let url := rstripPunct m.2
  let context_before := (text.take m.1).drop (m.1 - 10)
  if isSubList (str "](") context_before ∨
     isSubList (str "<a") (toLowerStr context_before) then none
  else some ⟨url, url, "bare"⟩

/-- Embedding of `utils.extract_citations_from_text`: three passes (markdown links,
HTML anchors, bare URLs) over the text in this fixed order, sharing one
`seen_urls` set; the deduplicated citations are emitted in first-seen
order. -/
def extract_citations_from_text (text : Str) : List TextCitation :=
  let p1 := dedupFold mdCandidate (mdMatches text) []
  let p2 := dedupFold htmlCandidate (htmlMatches text) p1.2
  let p3 := dedupFold (bareCandidate text) (bareMatches text) p2.2
  p1.1 ++ p2.1 ++ p3.1

/-- A full citation record as assembled by
`ArticleIngester._extract_citations` and consumed by the graph builder:
keys `url`, `text`, `type`, `source_type`, `domain`, `reliability`. -/
structure Citation where
  url : Str
  text : Str
  ctype : String
  source_type : String
  domain : Str
  reliability : ℚ
deriving DecidableEq

/-- The final dedup loop of `ArticleIngester._extract_citations` (lines
147-156): keep a citation when its slash-stripped URL has not been seen;
the stored record is unchanged. -/
def ingDedupAux : List Citation → List Str → List Citation
  | [], _ => []
  | c :: rest, seen =>
    let normalized_url := rstripSlash c.url
    if normalized_url ∈ seen then ingDedupAux rest seen
    else c :: ingDedupAux rest (normalized_url :: seen)

/-- The deduplication stage of `ArticleIngester._extract_citations`
applied to the combined citation list. -/
def ingesterDedup (citations : List Citation) : List Citation :=
  ingDedupAux citations []

/-- The article record consumed by `CitationGraphBuilder.build_graph`:
keys `url`, `title`, `word_count`, `citations`. -/
structure ArticleData where
  url : Str
  title : Str
  word_count : Nat
  citations : List Citation
deriving DecidableEq

/-- Node attributes of the citation graph: `node_type="article"` nodes
carry title, word count and citation count; `node_type="source"` nodes
carry domain, source type and reliability. -/
inductive NodeAttrs where
  | article (title : Str) (word_count : Nat) (citation_count : Nat)
  | source (domain : Str) (source_type : String) (reliability : ℚ)
deriving DecidableEq

instance : Inhabited NodeAttrs := ⟨NodeAttrs.article [] 0 0⟩

/-- The `node_type` attribute. -/
def nodeTypeOf : NodeAttrs → String
  | .article _ _ _ => "article"
  | .source _ _ _ => "source"

/-- Embedding of `attrs.get("domain", default)`. -/
def domainOf (default : Str) : NodeAttrs → Str
  | .source d _ _ => d
  | .article _ _ _ => default

/-- Embedding of `attrs.get("source_type", default)`. -/
def stypeOf (default : String) : NodeAttrs → String
  | .source _ t _ => t
  | .article _ _ _ => default

/-- Embedding of `attrs.get("reliability", default)`. -/
def relOf (default : ℚ) : NodeAttrs → ℚ
  | .source _ _ r => r
  | .article _ _ _ => default

/-- An edge of the citation graph with its `weight` and `citation_text`
attributes. -/
structure Edge where
  src : Str
  tgt : Str
  weight : ℚ
  citation_text : Str
deriving DecidableEq

/-- A `networkx.DiGraph` as used by the builder and analyzer: nodes in
insertion order with their attribute records, and directed edges in
insertion order.  (The builder always adds both endpoints before an
edge, so `add_edge`'s implicit node creation is never exercised and is
not modelled.) -/
structure Graph where
  nodes : List (Str × NodeAttrs)
  edges : List Edge
deriving DecidableEq

/-- Embedding of `networkx` `add_edge`: updating an existing `(u, v)` edge overwrites
its attributes in place; otherwise the edge is appended. -/
def addEdge (g : Graph) (u v : Str) (w : ℚ) (t : Str) : Graph :=
  if ∃ e ∈ g.edges, e.src = u ∧ e.tgt = v then
    { g with
      edges := g.edges.map (fun e =>
        if e.src = u ∧ e.tgt = v then { e with weight := w, citation_text := t } else e) }
  else { g with edges := g.edges ++ [⟨u, v, w, t⟩] }

/-- Embedding of `CitationGraphBuilder._calculate_edge_weight`: base reliability plus
a diversity boost (diversity score of the article's full domain list,
scaled by 0.2) plus a source-type boost (`min(0.1, unique_types*0.02)`),
clamped with `min(1.0, max(0.0, weight))`. -/
def calc_edge_weight (citation : Citation) (article_data : ArticleData) : ℚ :=
  let base_weight := citation.reliability
  let all_domains := article_data.citations.map (fun c => c.domain)
  let diversity := calculate_diversity_score all_domains
  let diversity_boost := diversity * (2 / 10)
  let source_types := article_data.citations.map (fun c => c.source_type)
  let unique_types : Nat := (dedupKeys source_types).length
  let type_boost : ℚ := min (1 / 10) ((unique_types : ℚ) * (2 / 100))
  min 1 (max 0 (base_weight + diversity_boost + type_boost))

/-- One iteration of the citation loop of
`CitationGraphBuilder.build_graph`: add the source node if absent, then
add (or overwrite) the article-to-source edge. -/
def buildStep (article_data : ArticleData) (g : Graph) (citation : Citation) : Graph :=
  let g1 :=
    if citation.url ∈ g.nodes.map Prod.fst then g
    else { g with
      nodes := g.nodes ++
        [(citation.url, NodeAttrs.source citation.domain citation.source_type
            citation.reliability)] }
  addEdge g1 article_data.url citation.url (calc_edge_weight citation article_data)
    citation.text

/-- Embedding of `CitationGraphBuilder.build_graph`: start from a fresh graph holding
only the article node, then process every citation in order. -/
def build_graph (article_data : ArticleData) : Graph :=
  article_data.citations.foldl (buildStep article_data)
    { nodes := [(article_data.url,
        NodeAttrs.article article_data.title article_data.word_count
          article_data.citations.length)],
      edges := [] }

/-- Embedding of `clamp01` of the specification: clamp a value to the interval [0,1]. -/
def clamp01 (x : ℚ) : ℚ := min 1 (max 0 x)

/-- The edge-weight formula exactly as the specification words it
(section 4.4): `clamp01(reliability + diversityBoost + typeBoost)` with
`diversityBoost = domainDiversityScore(allDomainsInThisCitationSet)*0.2`
and `typeBoost = min(0.1, uniqueCategoryCount*0.02)`, both computed from
the article's full citation set. -/
def spec_edge_weight (article_data : ArticleData) (citation : Citation) : ℚ :=
  clamp01 (citation.reliability +
    calculate_diversity_score (article_data.citations.map (fun c => c.domain)) * (2 / 10) +
    min (1 / 10) (((dedupKeys (article_data.citations.map (fun c => c.source_type))).length : ℚ)
      * (2 / 100)))

/-- Modelled from the spec: `config.py` is not under `src/`; spec
section 6 lists `MIN_CITATIONS`, `BIAS_THRESHOLD` and
`CLUSTER_RISK_THRESHOLD` as externally supplied, read-only
configuration, so they are carried as parameters of the analyzer. -/
structure Config where
  min_citations : Nat
  bias_threshold : ℚ
  cluster_risk_threshold : ℚ
deriving DecidableEq

/-- The source nodes of a graph in node-insertion order
(`GraphAnalyzer._get_source_nodes` without the caching layer). -/
def sourceNodesOf (g : Graph) : List (Str × NodeAttrs) :=
  g.nodes.filter (fun p => nodeTypeOf p.2 == "source")

/-- The bias-metrics dict of `GraphAnalyzer._calculate_bias_metrics`.
The three keys `top_domain`, `domain_distribution` and
`source_type_distribution` appear only in the non-empty branch, hence
the `Option` fields (`none` models an absent key). -/
structure BiasMetrics where
  source_concentration : ℚ
  single_cluster_risk : ℚ
  top_domain_percentage : ℚ
  ideological_cluster_score : ℚ
  top_domain : Option Str
  domain_distribution : Option (List (Str × Nat))
  source_type_distribution : Option (List (String × Nat))
deriving DecidableEq

/-- The zero-source-nodes result of `_calculate_bias_metrics`. -/
def zeroBias : BiasMetrics :=
  { source_concentration := 0, single_cluster_risk := 0, top_domain_percentage := 0,
    ideological_cluster_score := 0, top_domain := none, domain_distribution := none,
    source_type_distribution := none }

/-- The key list of the dict returned by `_calculate_bias_metrics`, in
Python dict insertion order; the optional keys are present exactly when
the corresponding field is `some`. -/
def biasKeys (m : BiasMetrics) : List String :=
  ["source_concentration", "single_cluster_risk", "top_domain_percentage"] ++
  (match m.top_domain with | some _ => ["top_domain"] | none => []) ++
  (match m.domain_distribution with | some _ => ["domain_distribution"] | none => []) ++
  (match m.source_type_distribution with | some _ => ["source_type_distribution"] | none => []) ++
  ["ideological_cluster_score"]

/-- Embedding of `GraphAnalyzer._calculate_bias_metrics` as a pure function of the
source-node list: domain and source-type counting dicts, top shares,
and their average as `source_concentration`. -/
def biasFrom (source_nodes : List (Str × NodeAttrs)) : BiasMetrics :=
  if source_nodes = [] then zeroBias
  else
    let domains := source_nodes.map (fun p => domainOf (str "unknown") p.2)
    let domain_counts := countsOf domains
    let total : Nat := domains.length
    let top_domain_percentage : ℚ :=
      if 0 < total then (maxVal (domain_counts.map Prod.snd) : ℚ) / (total : ℚ) else 0
    let source_types := source_nodes.map (fun p => stypeOf "other" p.2)
    let type_counts := countsOf source_types
    let single_cluster_risk : ℚ :=
      if 0 < total then (maxVal (type_counts.map Prod.snd) : ℚ) / (total : ℚ) else 0
    let source_concentration : ℚ := (top_domain_percentage + single_cluster_risk) / 2
    { source_concentration := source_concentration,
      single_cluster_risk := single_cluster_risk,
      top_domain_percentage := top_domain_percentage,
      ideological_cluster_score := single_cluster_risk,
      top_domain := firstMaxKey domain_counts,
      domain_distribution := some domain_counts,
      source_type_distribution := some type_counts }

/-- The diversity-metrics dict of
`GraphAnalyzer._calculate_diversity_metrics`; `unique_domains` and
`unique_source_types` appear only in the non-empty branch. -/
structure DivMetrics where
  domain_diversity : ℚ
  source_type_diversity : ℚ
  reliability_diversity : ℚ
  overall_diversity : ℚ
  unique_domains : Option Nat
  unique_source_types : Option Nat
deriving DecidableEq

/-- The zero-source-nodes result of `_calculate_diversity_metrics`. -/
def zeroDiv : DivMetrics :=
  { domain_diversity := 0, source_type_diversity := 0, reliability_diversity := 0,
    overall_diversity := 0, unique_domains := none, unique_source_types := none }

/-- Embedding of `GraphAnalyzer._calculate_diversity_metrics` as a pure function of
the source-node list: unique-element fractions for domains and source
types, reliability variance scaled by 4 and clamped, and the weighted
overall score. -/
def divFrom (source_nodes : List (Str × NodeAttrs)) : DivMetrics :=
  if source_nodes = [] then zeroDiv
  else
    let domains := source_nodes.map (fun p => domainOf (str "") p.2)
    let source_types := source_nodes.map (fun p => stypeOf "other" p.2)
    let reliabilities := source_nodes.map (fun p => relOf (1 / 2) p.2)
    let unique_domains : Nat := (dedupKeys domains).length
    let domain_diversity : ℚ :=
      if domains ≠ [] then (unique_domains : ℚ) / (domains.length : ℚ) else 0
    let unique_types : Nat := (dedupKeys source_types).length
    let source_type_diversity : ℚ :=
      if source_types ≠ [] then (unique_types : ℚ) / (source_types.length : ℚ) else 0
    let reliability_diversity : ℚ :=
      if reliabilities ≠ [] then
        let avg_reliability := reliabilities.sum / (reliabilities.length : ℚ)
        let reliability_variance :=
          (reliabilities.map (fun r => (r - avg_reliability) ^ 2)).sum /
            (reliabilities.length : ℚ)
        min 1 (reliability_variance * 4)
      else 0
    let overall_diversity : ℚ :=
      domain_diversity * (4 / 10) + source_type_diversity * (4 / 10) +
        reliability_diversity * (2 / 10)
    { domain_diversity := domain_diversity,
      source_type_diversity := source_type_diversity,
      reliability_diversity := reliability_diversity,
      overall_diversity := overall_diversity,
      unique_domains := some unique_domains,
      unique_source_types := some unique_types }

/-- The quality-scores dict of `GraphAnalyzer._calculate_quality_scores`;
`citation_count_score` appears only in the non-empty branch. -/
structure QualScores where
  citation_quality : ℚ
  source_reliability : ℚ
  diversity_score : ℚ
  citation_count_score : Option ℚ
  overall_quality : ℚ
deriving DecidableEq

/-- The zero-source-nodes result of `_calculate_quality_scores`. -/
def zeroQual : QualScores :=
  { citation_quality := 0, source_reliability := 0, diversity_score := 0,
    citation_count_score := none, overall_quality := 0 }

/-- The non-empty branch of `_calculate_quality_scores`: weighted
average of mean reliability, overall diversity and the normalized
citation count. -/
def qualNonzero (source_nodes : List (Str × NodeAttrs)) (div : DivMetrics) : QualScores :=
  let reliabilities := source_nodes.map (fun p => relOf (1 / 2) p.2)
  let source_reliability := reliabilities.sum / (reliabilities.length : ℚ)
  let diversity_score := div.overall_diversity
  let citation_count : Nat := source_nodes.length
  let citation_count_score : ℚ := min 1 ((citation_count : ℚ) / 10)
  let overall_quality : ℚ :=
    source_reliability * (4 / 10) + diversity_score * (3 / 10) +
      citation_count_score * (3 / 10)
  { citation_quality := overall_quality,
    source_reliability := source_reliability,
    diversity_score := diversity_score,
    citation_count_score := some citation_count_score,
    overall_quality := overall_quality }

/-- A red-flag record `{type, severity}`.  The human-readable `message`
string (f-string interpolation of counts and thresholds) is presentation
only and is not modelled. -/
structure RedFlag where
  ftype : String
  severity : String
deriving DecidableEq

/-- Embedding of `GraphAnalyzer._detect_red_flags` as a pure function: the five
checks run independently in source order and every triggered flag is
appended.  The `quality_scores` argument of the method is not read by
its body and is dropped here. -/
def flagsFrom (cfg : Config) (source_nodes : List (Str × NodeAttrs))
    (bias : BiasMetrics) : List RedFlag :=
  (if source_nodes.length < cfg.min_citations then
    [⟨"insufficient_citations", "high"⟩] else []) ++
  (if ((source_nodes.filter (fun p => decide (relOf (1 / 2) p.2 < 4 / 10))).length : ℚ) >
      (source_nodes.length : ℚ) * (1 / 2) then
    [⟨"low_reliability_dominance", "medium"⟩] else []) ++
  (if bias.source_concentration > cfg.bias_threshold then
    [⟨"high_source_concentration", "high"⟩] else []) ++
  (if bias.single_cluster_risk > cfg.cluster_risk_threshold then
    [⟨"single_cluster_risk", "high"⟩] else []) ++
  (if (["academic", "government", "news"].filter
        (fun t => t ∉ source_nodes.map (fun p => stypeOf "other" p.2))) ≠ [] then
    [⟨"missing_viewpoint_diversity", "medium"⟩] else [])

/-- One recommendation of `GraphAnalyzer._generate_recommendations`,
identified by its triggering condition; the template strings themselves
are presentation only and are not modelled.  `highConcentration` carries
`bias_metrics.get('top_domain')` and `addSources` the missing category
list, the data interpolated into the template. -/
inductive Rec where
  | lowQuality
  | highConcentration (top_domain : Option Str)
  | lowTypeDiversity
  | lowReliability
  | addSources (missing : List String)
deriving DecidableEq

/-- Embedding of `GraphAnalyzer._generate_recommendations` as a pure function: five
independent checks with hard-coded thresholds, in source order.  The
`red_flags` argument of the method is not read by its body and is
dropped here. -/
def recsFrom (bias : BiasMetrics) (div : DivMetrics) (qual : QualScores)
    (source_nodes : List (Str × NodeAttrs)) : List Rec :=
  (if qual.overall_quality < 6 / 10 then [Rec.lowQuality] else []) ++
  (if bias.source_concentration > 5 / 10 then [Rec.highConcentration bias.top_domain] else []) ++
  (if div.source_type_diversity < 5 / 10 then [Rec.lowTypeDiversity] else []) ++
  (if qual.source_reliability < 6 / 10 then [Rec.lowReliability] else []) ++
  (let source_types := source_nodes.map (fun p => stypeOf "other" p.2)
   let missing := ["academic", "government"].filter (fun t => t ∉ source_types)
   if missing ≠ [] then [Rec.addSources missing] else [])

/-- The analysis result returned by `GraphAnalyzer.analyze`: keys
`bias_metrics`, `diversity_metrics`, `red_flags`, `quality_scores`,
`recommendations`. -/
structure AnalysisResult where
  bias_metrics : BiasMetrics
  diversity_metrics : DivMetrics
  red_flags : List RedFlag
  quality_scores : QualScores
  recommendations : List Rec
deriving DecidableEq

/-- The instance state of a `GraphAnalyzer`: the graph and the four
cache fields initialized to `None` in `__init__`. -/
structure AState where
  graph : Graph
  biasCache : Option BiasMetrics
  divCache : Option DivMetrics
  qualCache : Option QualScores
  srcCache : Option (List (Str × NodeAttrs))
deriving DecidableEq

/-- Embedding of `GraphAnalyzer.__init__(graph)`: all caches start empty. -/
def initState (g : Graph) : AState :=
  { graph := g, biasCache := none, divCache := none, qualCache := none, srcCache := none }

/-- Embedding of `GraphAnalyzer._get_source_nodes`: return the cached source-node
list, computing and storing it on first use. -/
def m_get_source_nodes (s : AState) : List (Str × NodeAttrs) × AState :=
  match s.srcCache with
  | some l => (l, s)
  | none => (sourceNodesOf s.graph, { s with srcCache := some (sourceNodesOf s.graph) })

/-- Embedding of `GraphAnalyzer._calculate_bias_metrics`: return the cached value if
present; the cache-store statements after the `return` are unreachable
in the source, so the computed value is never cached. -/
def m_calculate_bias_metrics (s : AState) : BiasMetrics × AState :=
  match s.biasCache with
  | some m => (m, s)
  | none =>
    let p := m_get_source_nodes s
    (biasFrom p.1, p.2)

/-- Embedding of `GraphAnalyzer._calculate_diversity_metrics`: same unreachable
cache-store as the bias metrics. -/
def m_calculate_diversity_metrics (s : AState) : DivMetrics × AState :=
  match s.divCache with
  | some m => (m, s)
  | none =>
    let p := m_get_source_nodes s
    (divFrom p.1, p.2)

/-- Embedding of `GraphAnalyzer._calculate_quality_scores`: no cache check; the
source-node list is recomputed inline (not via `_get_source_nodes`), and
the diversity metrics are obtained through the caching method. -/
def m_calculate_quality_scores (s : AState) : QualScores × AState :=
  let source_nodes := sourceNodesOf s.graph
  if source_nodes = [] then (zeroQual, s)
  else
    let p := m_calculate_diversity_metrics s
    (qualNonzero source_nodes p.1, p.2)

/-- Embedding of `GraphAnalyzer._detect_red_flags` with both metric arguments
provided (as `analyze` calls it). -/
def m_detect_red_flags (cfg : Config) (bias : BiasMetrics) (_qual : QualScores)
    (s : AState) : List RedFlag × AState :=
  let p := m_get_source_nodes s
  (flagsFrom cfg p.1 bias, p.2)

/-- Embedding of `GraphAnalyzer._generate_recommendations` with all four arguments
provided (as `analyze` calls it). -/
def m_generate_recommendations (bias : BiasMetrics) (div : DivMetrics)
    (qual : QualScores) (_flags : List RedFlag) (s : AState) : List Rec × AState :=
  let p := m_get_source_nodes s
  (recsFrom bias div qual p.1, p.2)

/-- Embedding of `GraphAnalyzer.analyze`: compute the three metric groups, then the
red flags and recommendations from them, threading the instance state. -/
def analyze (cfg : Config) (s : AState) : AnalysisResult × AState :=
  let pb := m_calculate_bias_metrics s
  let pd := m_calculate_diversity_metrics pb.2
  let pq := m_calculate_quality_scores pd.2
  let pf := m_detect_red_flags cfg pb.1 pq.1 pq.2
  let pr := m_generate_recommendations pb.1 pd.1 pq.1 pf.1 pf.2
  ({ bias_metrics := pb.1, diversity_metrics := pd.1, red_flags := pf.1,
     quality_scores := pq.1, recommendations := pr.1 }, pr.2)

/-- The structural invariant maintained by the citation loop of
`build_graph`: the article node stays at the head, every later node is a
source node, the edge-target list equals the source-node key list, and
every edge starts at the article. -/
def BuildInv (a : ArticleData) (g : Graph) : Prop :=
  ∃ S, g.nodes = (a.url,
      NodeAttrs.article a.title a.word_count a.citations.length) :: S ∧
    (∀ p ∈ S, nodeTypeOf p.2 = "source") ∧
    g.edges.map (fun e => e.tgt) = S.map Prod.fst ∧
    ∀ e ∈ g.edges, e.src = a.url

/-- Embedding of `_calculate_quality_scores` as a pure function of the graph. -/
def qualOf (g : Graph) : QualScores :=
  if sourceNodesOf g = [] then zeroQual
  else qualNonzero (sourceNodesOf g) (divFrom (sourceNodesOf g))

/-- The pure value of `GraphAnalyzer.analyze` on a graph. -/
def analyzeResult (cfg : Config) (g : Graph) : AnalysisResult :=
  { bias_metrics := biasFrom (sourceNodesOf g),
    diversity_metrics := divFrom (sourceNodesOf g),
    red_flags := flagsFrom cfg (sourceNodesOf g) (biasFrom (sourceNodesOf g)),
    quality_scores := qualOf g,
    recommendations := recsFrom (biasFrom (sourceNodesOf g)) (divFrom (sourceNodesOf g))
      (qualOf g) (sourceNodesOf g) }

/-- States reachable by the analyzer: the source-node cache is empty or
correct, and the metric caches are empty (their store statements are
dead code in the source). -/
def CacheOK (s : AState) : Prop :=
  (s.srcCache = none ∨ s.srcCache = some (sourceNodesOf s.graph)) ∧
  s.biasCache = none ∧ s.divCache = none

/-- The `top_domain_percentage` value of the non-empty branch of
`_calculate_bias_metrics` (helper for evaluation lemmas). -/
def bTDP (source_nodes : List (Str × NodeAttrs)) : ℚ :=
  if 0 < (source_nodes.map (fun p => domainOf (str "unknown") p.2)).length then
    (maxVal ((countsOf (source_nodes.map (fun p => domainOf (str "unknown") p.2))).map
      Prod.snd) : ℚ) /
      (((source_nodes.map (fun p => domainOf (str "unknown") p.2)).length : Nat) : ℚ)
  else 0

/-- The `single_cluster_risk` value of the non-empty branch of
`_calculate_bias_metrics`; the denominator is the domain-list length
`total`, exactly as in the source. -/
def bSCR (source_nodes : List (Str × NodeAttrs)) : ℚ :=
  if 0 < (source_nodes.map (fun p => domainOf (str "unknown") p.2)).length then
    (maxVal ((countsOf (source_nodes.map (fun p => stypeOf "other" p.2))).map
      Prod.snd) : ℚ) /
      (((source_nodes.map (fun p => domainOf (str "unknown") p.2)).length : Nat) : ℚ)
  else 0

/-! Concrete inputs used by the witnesses and counterexamples. -/

/-- A well-formed citation record. -/
def cW : Citation :=
  ⟨str "https://s.com/x", str "link", "markdown", "news", str "s.com", 7 / 10⟩

/-- An article with one ordinary citation. -/
def aW : ArticleData := ⟨str "https://g.com/a", str "T", 3, [cW]⟩

/-- The unique edge `build_graph` produces for `aW`. -/
def eW : Edge :=
  ⟨str "https://g.com/a", str "https://s.com/x", spec_edge_weight aW cW, str "link"⟩

/-- An article whose only citation URL equals the article URL itself. -/
def aSelf : ArticleData :=
  ⟨str "u", str "T", 0, [⟨str "u", str "x", "html", "news", str "u.com", 1 / 2⟩]⟩

/-- The markdown text with two citations whose URLs differ only by a
trailing slash. -/
def textC3 : Str := str "[a](https://a.com/) [b](https://a.com)"

/-- An empty graph holding only an article node. -/
def gEmpty : Graph := ⟨[(str "u", NodeAttrs.article (str "T") 0 0)], []⟩

/-- A configuration with the spec's bias threshold 0.5 and a positive
citation minimum. -/
def cfg7 : Config := ⟨3, 1 / 2, 7 / 10⟩

/-- Ten source nodes, nine sharing domain `d`, with ten pairwise
distinct source types. -/
def gC7 : Graph :=
  ⟨[(str "s0", NodeAttrs.source (str "d") "t0" (1 / 2)),
    (str "s1", NodeAttrs.source (str "d") "t1" (1 / 2)),
    (str "s2", NodeAttrs.source (str "d") "t2" (1 / 2)),
    (str "s3", NodeAttrs.source (str "d") "t3" (1 / 2)),
    (str "s4", NodeAttrs.source (str "d") "t4" (1 / 2)),
    (str "s5", NodeAttrs.source (str "d") "t5" (1 / 2)),
    (str "s6", NodeAttrs.source (str "d") "t6" (1 / 2)),
    (str "s7", NodeAttrs.source (str "d") "t7" (1 / 2)),
    (str "s8", NodeAttrs.source (str "d") "t8" (1 / 2)),
    (str "s9", NodeAttrs.source (str "e") "t9" (1 / 2))], []⟩

/-- Ten source nodes, nine sharing domain `d` and source type `t`. -/
def gW7 : Graph :=
  ⟨[(str "s0", NodeAttrs.source (str "d") "t" (1 / 2)),
    (str "s1", NodeAttrs.source (str "d") "t" (1 / 2)),
    (str "s2", NodeAttrs.source (str "d") "t" (1 / 2)),
    (str "s3", NodeAttrs.source (str "d") "t" (1 / 2)),
    (str "s4", NodeAttrs.source (str "d") "t" (1 / 2)),
    (str "s5", NodeAttrs.source (str "d") "t" (1 / 2)),
    (str "s6", NodeAttrs.source (str "d") "t" (1 / 2)),
    (str "s7", NodeAttrs.source (str "d") "t" (1 / 2)),
    (str "s8", NodeAttrs.source (str "d") "t" (1 / 2)),
    (str "s9", NodeAttrs.source (str "e") "u" (1 / 2))], []⟩


/-! Auxiliary lemmas about the counting and deduplication helpers. -/

lemma le_foldl_max (l : List Nat) (b : Nat) : b ≤ l.foldl max b := by
  induction l generalizing b with
  | nil => exact Nat.le_refl b
  | cons a t ih => exact Nat.le_trans (Nat.le_max_left b a) (ih (max b a))

lemma mem_le_foldl_max {x : Nat} {l : List Nat} (b : Nat) (h : x ∈ l) :
    x ≤ l.foldl max b := by
  induction l generalizing b with
  | nil => cases h
  | cons a t ih =>
    rcases List.mem_cons.mp h with rfl | h'
    · exact Nat.le_trans (Nat.le_max_right b x) (le_foldl_max t (max b x))
    · exact ih (max b a) h'

lemma le_maxVal_of_mem {x : Nat} {l : List Nat} (h : x ∈ l) : x ≤ maxVal l :=
  mem_le_foldl_max 0 h

lemma mem_dedupAux [DecidableEq α] (l : List α) (seen : List α) (a : α) :
    a ∈ dedupAux seen l ↔ a ∈ l ∧ a ∉ seen := by
  induction l generalizing seen with
  | nil => simp [dedupAux]
  | cons x xs ih =>
    by_cases hx : x ∈ seen
    · rw [dedupAux, if_pos hx, ih]
      simp only [List.mem_cons]
      constructor
      · rintro ⟨h1, h2⟩; exact ⟨Or.inr h1, h2⟩
      · rintro ⟨h1 | h1, h2⟩
        · exact absurd (h1 ▸ hx) h2
        · exact ⟨h1, h2⟩
    · rw [dedupAux, if_neg hx]
      simp only [List.mem_cons, ih, List.mem_cons]
      by_cases hax : a = x
      · subst hax; simp [hx]
      · simp [hax]

lemma mem_dedupKeys [DecidableEq α] {l : List α} {a : α} :
    a ∈ dedupKeys l ↔ a ∈ l := by
  simp [dedupKeys, mem_dedupAux]

lemma mem_of_occCount_pos [DecidableEq α] {l : List α} {a : α}
    (h : 0 < occCount l a) : a ∈ l := by
  obtain ⟨x, hx⟩ := List.exists_mem_of_length_pos h
  obtain ⟨hxl, hxa⟩ := List.mem_filter.mp hx
  exact (of_decide_eq_true hxa) ▸ hxl

lemma occCount_le_maxVal_counts [DecidableEq α] (l : List α) (a : α) (h : a ∈ l) :
    occCount l a ≤ maxVal ((countsOf l).map Prod.snd) := by
  have h1 : a ∈ dedupKeys l := mem_dedupKeys.mpr h
  have h2 : (a, occCount l a) ∈ countsOf l := List.mem_map.mpr ⟨a, h1, rfl⟩
  exact le_maxVal_of_mem (List.mem_map.mpr ⟨_, h2, rfl⟩)

lemma dropWhile_self_idem (p : α → Bool) (l : List α) :
    (l.dropWhile p).dropWhile p = l.dropWhile p := by
  induction l with
  | nil => simp
  | cons a t ih =>
    by_cases h : p a = true
    · simp [List.dropWhile_cons, h, ih]
    · simp [List.dropWhile_cons, h]

lemma rstripPunct_idem (s : Str) : rstripPunct (rstripPunct s) = rstripPunct s := by
  simp [rstripPunct, dropWhile_self_idem]

/-! Lemmas about the shared dedup loop of the citation extractor. -/

lemma dedupFold_seen_incl (f : α → Option TextCitation) (l : List α) (seen : List Str) :
    ∀ u ∈ seen, u ∈ (dedupFold f l seen).2 := by
  induction l generalizing seen with
  | nil => intro u hu; simpa [dedupFold] using hu
  | cons a rest ih =>
    intro u hu
    rw [dedupFold]
    cases hfa : f a with
    | none => exact ih seen u hu
    | some c =>
      by_cases hc : c.url ∈ seen
      · simp only [hc, if_true]
        exact ih seen u hu
      · simp only [hc, if_false]
        exact ih (c.url :: seen) u (List.mem_cons_of_mem _ hu)

lemma dedupFold_out_in_final (f : α → Option TextCitation) (l : List α) (seen : List Str) :
    ∀ c ∈ (dedupFold f l seen).1, c.url ∈ (dedupFold f l seen).2 := by
  induction l generalizing seen with
  | nil => intro c hc; simp [dedupFold] at hc
  | cons a rest ih =>
    intro c hc
    rw [dedupFold] at hc ⊢
    cases hfa : f a with
    | none =>
      rw [hfa] at hc
      exact ih seen c hc
    | some c0 =>
      rw [hfa] at hc
      by_cases h0 : c0.url ∈ seen
      · simp only [h0, if_true] at hc ⊢
        exact ih seen c hc
      · simp only [h0, if_false] at hc ⊢
        rcases List.mem_cons.mp hc with rfl | hc'
        · exact dedupFold_seen_incl f rest (c.url :: seen) c.url (List.mem_cons_self _ _)
        · exact ih (c0.url :: seen) c hc'

lemma dedupFold_out_not_in_seen (f : α → Option TextCitation) (l : List α) (seen : List Str) :
    ∀ c ∈ (dedupFold f l seen).1, c.url ∉ seen := by
  induction l generalizing seen with
  | nil => intro c hc; simp [dedupFold] at hc
  | cons a rest ih =>
    intro c hc
    rw [dedupFold] at hc
    cases hfa : f a with
    | none =>
      rw [hfa] at hc
      exact ih seen c hc
    | some c0 =>
      rw [hfa] at hc
      by_cases h0 : c0.url ∈ seen
      · simp only [h0, if_true] at hc
        exact ih seen c hc
      · simp only [h0, if_false] at hc
        rcases List.mem_cons.mp hc with rfl | hc'
        · exact h0
        · intro hmem
          exact ih (c0.url :: seen) c hc' (List.mem_cons_of_mem _ hmem)

lemma dedupFold_nodup (f : α → Option TextCitation) (l : List α) (seen : List Str) :
    ((dedupFold f l seen).1.map (fun c => c.url)).Nodup := by
  induction l generalizing seen with
  | nil => simp [dedupFold]
  | cons a rest ih =>
    rw [dedupFold]
    cases hfa : f a with
    | none => exact ih seen
    | some c0 =>
      by_cases h0 : c0.url ∈ seen
      · simp only [h0, if_true]
        exact ih seen
      · simp only [h0, if_false, List.map_cons, List.nodup_cons]
        refine ⟨?_, ih (c0.url :: seen)⟩
        intro hmem
        obtain ⟨c, hc, hurl⟩ := List.mem_map.mp hmem
        exact dedupFold_out_not_in_seen f rest (c0.url :: seen) c hc
          (hurl ▸ List.mem_cons_self _ _)

lemma dedupFold_length (f : α → Option TextCitation) (l : List α) (seen : List Str) :
    (dedupFold f l seen).1.length ≤ l.length := by
  induction l generalizing seen with
  | nil => simp [dedupFold]
  | cons a rest ih =>
    rw [dedupFold]
    cases hfa : f a with
    | none => exact Nat.le_succ_of_le (ih seen)
    | some c0 =>
      by_cases h0 : c0.url ∈ seen
      · simp only [h0, if_true]
        exact Nat.le_succ_of_le (ih seen)
      · simp only [h0, if_false, List.length_cons]
        exact Nat.succ_le_succ (ih (c0.url :: seen))

lemma dedupFold_shape (f : α → Option TextCitation) (p : TextCitation → Prop)
    (hf : ∀ a c, f a = some c → p c) (l : List α) (seen : List Str) :
    ∀ c ∈ (dedupFold f l seen).1, p c := by
  induction l generalizing seen with
  | nil => intro c hc; simp [dedupFold] at hc
  | cons a rest ih =>
    intro c hc
    rw [dedupFold] at hc
    cases hfa : f a with
    | none =>
      rw [hfa] at hc
      exact ih seen c hc
    | some c0 =>
      rw [hfa] at hc
      by_cases h0 : c0.url ∈ seen
      · simp only [h0, if_true] at hc
        exact ih seen c hc
      · simp only [h0, if_false] at hc
        rcases List.mem_cons.mp hc with rfl | hc'
        · exact hf a c hfa
        · exact ih (c0.url :: seen) c hc'

lemma ingDedupAux_spec (cs : List Citation) (seen : List Str) :
    ((ingDedupAux cs seen).map (fun c => rstripSlash c.url)).Nodup ∧
    ∀ c ∈ ingDedupAux cs seen, rstripSlash c.url ∉ seen := by
  induction cs generalizing seen with
  | nil => simp [ingDedupAux]
  | cons c rest ih =>
    by_cases h : rstripSlash c.url ∈ seen
    · rw [ingDedupAux]
      simp only [h, if_true]
      refine ⟨(ih seen).1, ?_⟩
      intro x hx
      exact (ih seen).2 x hx
    · rw [ingDedupAux]
      simp only [h, if_false]
      constructor
      · simp only [List.map_cons, List.nodup_cons]
        refine ⟨?_, (ih (rstripSlash c.url :: seen)).1⟩
        intro hmem
        obtain ⟨x, hx, hxe⟩ := List.mem_map.mp hmem
        exact (ih (rstripSlash c.url :: seen)).2 x hx (hxe ▸ List.mem_cons_self _ _)
      · intro x hx
        rcases List.mem_cons.mp hx with rfl | hx'
        · exact h
        · intro hmem
          exact (ih (rstripSlash c.url :: seen)).2 x hx' (List.mem_cons_of_mem _ hmem)

lemma extract_expand (text : Str) :
    extract_citations_from_text text =
      (dedupFold mdCandidate (mdMatches text) []).1 ++
      (dedupFold htmlCandidate (htmlMatches text)
        (dedupFold mdCandidate (mdMatches text) []).2).1 ++
      (dedupFold (bareCandidate text) (bareMatches text)
        (dedupFold htmlCandidate (htmlMatches text)
          (dedupFold mdCandidate (mdMatches text) []).2).2).1 := rfl

lemma extract_urls_nodup (text : Str) :
    ((extract_citations_from_text text).map (fun c => c.url)).Nodup := by
  rw [extract_expand]
  set P1 := dedupFold mdCandidate (mdMatches text) [] with hP1
  set P2 := dedupFold htmlCandidate (htmlMatches text) P1.2 with hP2
  set P3 := dedupFold (bareCandidate text) (bareMatches text) P2.2 with hP3
  rw [List.map_append, List.map_append]
  have n1 : (P1.1.map (fun c => c.url)).Nodup := by rw [hP1]; exact dedupFold_nodup _ _ _
  have n2 : (P2.1.map (fun c => c.url)).Nodup := by rw [hP2]; exact dedupFold_nodup _ _ _
  have n3 : (P3.1.map (fun c => c.url)).Nodup := by rw [hP3]; exact dedupFold_nodup _ _ _
  have m1 : ∀ u ∈ P1.1.map (fun c => c.url), u ∈ P1.2 := by
    intro u hu
    obtain ⟨c, hc, he⟩ := List.mem_map.mp hu
    exact he ▸ dedupFold_out_in_final _ _ _ c hc
  have m2 : ∀ u ∈ P2.1.map (fun c => c.url), u ∈ P2.2 := by
    intro u hu
    obtain ⟨c, hc, he⟩ := List.mem_map.mp hu
    exact he ▸ dedupFold_out_in_final _ _ _ c hc
  have s12 : ∀ u ∈ P1.2, u ∈ P2.2 := by
    intro u hu
    exact dedupFold_seen_incl _ _ _ u hu
  have d12 : (P1.1.map (fun c => c.url)).Disjoint (P2.1.map (fun c => c.url)) := by
    intro u hu1 hu2
    obtain ⟨c, hc, he⟩ := List.mem_map.mp hu2
    exact dedupFold_out_not_in_seen _ _ _ c hc (he ▸ m1 u hu1)
  have d123 : ((P1.1.map (fun c => c.url)) ++ (P2.1.map (fun c => c.url))).Disjoint
      (P3.1.map (fun c => c.url)) := by
    intro u hu1 hu3
    obtain ⟨c, hc, he⟩ := List.mem_map.mp hu3
    have hu2 : u ∈ P2.2 := by
      rcases List.mem_append.mp hu1 with h | h
      · exact s12 u (m1 u h)
      · exact m2 u h
    exact dedupFold_out_not_in_seen _ _ _ c hc (he ▸ hu2)
  exact List.Nodup.append (List.Nodup.append n1 n2 d12) n3 d123

lemma extract_urls_stripped (text : Str) :
    ∀ c ∈ extract_citations_from_text text, rstripPunct c.url = c.url := by
  have hmd : ∀ a c, mdCandidate a = some c → rstripPunct c.url = c.url := by
    intro a c h
    unfold mdCandidate at h
    simp only [] at h
    split at h
    · injection h with h2
      rw [← h2]
      exact rstripPunct_idem _
    · exact absurd h (by simp)
  have hhtml : ∀ a c, htmlCandidate a = some c → rstripPunct c.url = c.url := by
    intro a c h
    unfold htmlCandidate at h
    simp only [] at h
    split at h
    · injection h with h2
      rw [← h2]
      exact rstripPunct_idem _
    · exact absurd h (by simp)
  have hbare : ∀ (a : Nat × Str) c, bareCandidate text a = some c →
      rstripPunct c.url = c.url := by
    intro a c h
    unfold bareCandidate at h
    simp only [] at h
    split at h
    · exact absurd h (by simp)
    · injection h with h2
      rw [← h2]
      exact rstripPunct_idem _
  rw [extract_expand]
  intro c hc
  rcases List.mem_append.mp hc with hc' | hc'
  · rcases List.mem_append.mp hc' with hc'' | hc''
    · exact dedupFold_shape _ _ hmd _ _ c hc''
    · exact dedupFold_shape _ _ hhtml _ _ c hc''
  · exact dedupFold_shape _ _ hbare _ _ c hc'

lemma extract_length_le (text : Str) :
    (extract_citations_from_text text).length ≤ rawMatchCount text := by
  rw [extract_expand, rawMatchCount]
  rw [List.length_append, List.length_append]
  exact Nat.add_le_add (Nat.add_le_add (dedupFold_length _ _ _) (dedupFold_length _ _ _))
    (dedupFold_length _ _ _)

/-! Lemmas about the graph builder. -/

lemma calc_eq_spec (citation : Citation) (article_data : ArticleData) :
    calc_edge_weight citation article_data = spec_edge_weight article_data citation := rfl

lemma addEdge_mem (g : Graph) (u v : Str) (w : ℚ) (t : Str) :
    ∀ e ∈ (addEdge g u v w t).edges,
      e ∈ g.edges ∨ (e.tgt = v ∧ e.weight = w) := by
  intro e he
  unfold addEdge at he
  split at he
  · simp only [List.mem_map] at he
    obtain ⟨e0, he0, hee⟩ := he
    by_cases hc : e0.src = u ∧ e0.tgt = v
    · rw [if_pos hc] at hee
      right
      rw [← hee]
      exact ⟨hc.2, rfl⟩
    · rw [if_neg hc] at hee
      exact Or.inl (hee ▸ he0)
  · simp only [List.mem_append, List.mem_singleton] at he
    rcases he with h | h
    · exact Or.inl h
    · right
      rw [h]
      exact ⟨rfl, rfl⟩

lemma buildStep_edge_inv (a : ArticleData) (g : Graph) (c : Citation)
    (hc : c ∈ a.citations)
    (hg : ∀ e ∈ g.edges, ∃ c0 ∈ a.citations, c0.url = e.tgt ∧ e.weight = spec_edge_weight a c0) :
    ∀ e ∈ (buildStep a g c).edges,
      ∃ c0 ∈ a.citations, c0.url = e.tgt ∧ e.weight = spec_edge_weight a c0 := by
  intro e he
  unfold buildStep at he
  simp only [] at he
  have he2 := addEdge_mem _ _ _ _ _ e he
  rcases he2 with h | ⟨ht, hw⟩
  · split at h
    · exact hg e h
    · exact hg e h
  · exact ⟨c, hc, ht.symm, by rw [hw, calc_eq_spec]⟩

lemma build_fold_edge_inv (a : ArticleData) :
    ∀ (cits : List Citation) (g : Graph),
      (∀ c ∈ cits, c ∈ a.citations) →
      (∀ e ∈ g.edges, ∃ c0 ∈ a.citations, c0.url = e.tgt ∧ e.weight = spec_edge_weight a c0) →
      ∀ e ∈ (cits.foldl (buildStep a) g).edges,
        ∃ c0 ∈ a.citations, c0.url = e.tgt ∧ e.weight = spec_edge_weight a c0 := by
  intro cits
  induction cits with
  | nil => intro g _ hg; exact hg
  | cons c rest ih =>
    intro g hsub hg
    rw [List.foldl_cons]
    exact ih (buildStep a g c)
      (fun x hx => hsub x (List.mem_cons_of_mem _ hx))
      (buildStep_edge_inv a g c (hsub c (List.mem_cons_self _ _)) hg)

lemma buildStep_inv (a : ArticleData) (g : Graph) (c : Citation)
    (hcu : c.url ≠ a.url) (h : BuildInv a g) : BuildInv a (buildStep a g c) := by
  obtain ⟨S, hn, hs, ht, hsrc⟩ := h
  by_cases hmem : c.url ∈ g.nodes.map Prod.fst
  · -- the source node already exists; the edge exists too and is overwritten
    have hcS : c.url ∈ S.map Prod.fst := by
      rw [hn] at hmem
      simp only [List.map_cons, List.mem_cons] at hmem
      rcases hmem with h' | h'
      · exact absurd h' hcu
      · exact h'
    have hedge : ∃ e ∈ g.edges, e.src = a.url ∧ e.tgt = c.url := by
      rw [← ht] at hcS
      obtain ⟨e, he, hee⟩ := List.mem_map.mp hcS
      exact ⟨e, he, hsrc e he, hee⟩
    refine ⟨S, ?_, hs, ?_, ?_⟩
    · rw [buildStep]
      simp only [hmem, if_true]
      rw [addEdge, if_pos hedge]
      exact hn
    · rw [buildStep]
      simp only [hmem, if_true]
      rw [addEdge, if_pos hedge]
      simp only [List.map_map]
      rw [← ht]
      apply List.map_congr_left
      intro e _
      by_cases hce : e.src = a.url ∧ e.tgt = c.url
      · simp [hce]
      · simp [hce]
    · rw [buildStep]
      simp only [hmem, if_true]
      rw [addEdge, if_pos hedge]
      intro e he
      simp only [List.mem_map] at he
      obtain ⟨e0, he0, hee⟩ := he
      by_cases hce : e0.src = a.url ∧ e0.tgt = c.url
      · rw [if_pos hce] at hee
        rw [← hee]
        exact hce.1
      · rw [if_neg hce] at hee
        exact hee ▸ hsrc e0 he0
  · -- fresh source node and fresh edge are appended
    have hnoedge : ¬ ∃ e ∈ g.edges, e.src = a.url ∧ e.tgt = c.url := by
      rintro ⟨e, he, -, hee⟩
      apply hmem
      have : c.url ∈ g.edges.map (fun e => e.tgt) := List.mem_map.mpr ⟨e, he, hee⟩
      rw [ht] at this
      rw [hn]
      simp only [List.map_cons, List.mem_cons]
      exact Or.inr this
    refine ⟨S ++ [(c.url, NodeAttrs.source c.domain c.source_type c.reliability)],
      ?_, ?_, ?_, ?_⟩
    · rw [buildStep]
      simp only [hmem, if_false]
      rw [addEdge]
      rw [if_neg hnoedge]
      simp [hn]
    · intro p hp
      rcases List.mem_append.mp hp with h' | h'
      · exact hs p h'
      · rw [List.mem_singleton.mp h']
        rfl
    · rw [buildStep]
      simp only [hmem, if_false]
      rw [addEdge]
      rw [if_neg hnoedge]
      simp only [List.map_append, ht]
      rfl
    · rw [buildStep]
      simp only [hmem, if_false]
      rw [addEdge]
      rw [if_neg hnoedge]
      intro e he
      rcases List.mem_append.mp he with h' | h'
      · exact hsrc e h'
      · rw [List.mem_singleton.mp h']

lemma build_fold_inv (a : ArticleData) :
    ∀ (cits : List Citation) (g : Graph),
      (∀ c ∈ cits, c.url ≠ a.url) → BuildInv a g →
      BuildInv a (cits.foldl (buildStep a) g) := by
  intro cits
  induction cits with
  | nil => intro g _ hg; exact hg
  | cons c rest ih =>
    intro g hne hg
    rw [List.foldl_cons]
    exact ih (buildStep a g c)
      (fun x hx => hne x (List.mem_cons_of_mem _ hx))
      (buildStep_inv a g c (hne c (List.mem_cons_self _ _)) hg)

lemma sourceNodes_of_inv (a : ArticleData) (g : Graph) (h : BuildInv a g) :
    (sourceNodesOf g).length = g.edges.length := by
  obtain ⟨S, hn, hs, ht, -⟩ := h
  have hfilter : sourceNodesOf g = S := by
    rw [sourceNodesOf, hn, List.filter_cons]
    have harticle : (nodeTypeOf (NodeAttrs.article a.title a.word_count
        a.citations.length) == "source") = false := by rfl
    rw [harticle]
    simp only [Bool.false_eq_true, if_false]
    apply List.filter_eq_self.mpr
    intro p hp
    exact beq_iff_eq.mpr (hs p hp)
  rw [hfilter]
  have := congrArg List.length ht
  simp only [List.length_map] at this
  omega

/-! Lemmas connecting the stateful analyzer to its pure value. -/

lemma cacheOK_init (g : Graph) : CacheOK (initState g) := by
  refine ⟨Or.inl rfl, rfl, rfl⟩


lemma m_src_spec (s : AState) (h : CacheOK s) :
    (m_get_source_nodes s).1 = sourceNodesOf s.graph ∧
    (m_get_source_nodes s).2.graph = s.graph ∧ CacheOK (m_get_source_nodes s).2 := by
  obtain ⟨g, bc, dc, qc, sc⟩ := s
  obtain ⟨hsrc, hb, hd⟩ := h
  replace hb : bc = none := hb
  replace hd : dc = none := hd
  subst hb
  subst hd
  rcases hsrc with h0 | h0
  · replace h0 : sc = none := h0
    subst h0
    exact ⟨rfl, rfl, Or.inr rfl, rfl, rfl⟩
  · replace h0 : sc = some (sourceNodesOf g) := h0
    subst h0
    exact ⟨rfl, rfl, Or.inr rfl, rfl, rfl⟩

lemma m_bias_spec (s : AState) (h : CacheOK s) :
    (m_calculate_bias_metrics s).1 = biasFrom (sourceNodesOf s.graph) ∧
    (m_calculate_bias_metrics s).2.graph = s.graph ∧
    CacheOK (m_calculate_bias_metrics s).2 := by
  obtain ⟨g, bc, dc, qc, sc⟩ := s
  obtain ⟨hsrc, hb, hd⟩ := h
  replace hb : bc = none := hb
  replace hd : dc = none := hd
  subst hb
  subst hd
  obtain ⟨hv, hg, hok⟩ := m_src_spec ⟨g, none, none, qc, sc⟩ ⟨hsrc, rfl, rfl⟩
  refine ⟨?_, hg, hok⟩
  show biasFrom (m_get_source_nodes ⟨g, none, none, qc, sc⟩).1 =
    biasFrom (sourceNodesOf g)
  rw [hv]

lemma m_div_spec (s : AState) (h : CacheOK s) :
    (m_calculate_diversity_metrics s).1 = divFrom (sourceNodesOf s.graph) ∧
    (m_calculate_diversity_metrics s).2.graph = s.graph ∧
    CacheOK (m_calculate_diversity_metrics s).2 := by
  obtain ⟨g, bc, dc, qc, sc⟩ := s
  obtain ⟨hsrc, hb, hd⟩ := h
  replace hb : bc = none := hb
  replace hd : dc = none := hd
  subst hb
  subst hd
  obtain ⟨hv, hg, hok⟩ := m_src_spec ⟨g, none, none, qc, sc⟩ ⟨hsrc, rfl, rfl⟩
  refine ⟨?_, hg, hok⟩
  show divFrom (m_get_source_nodes ⟨g, none, none, qc, sc⟩).1 =
    divFrom (sourceNodesOf g)
  rw [hv]

lemma m_qual_spec (s : AState) (h : CacheOK s) :
    (m_calculate_quality_scores s).1 = qualOf s.graph ∧
    (m_calculate_quality_scores s).2.graph = s.graph ∧
    CacheOK (m_calculate_quality_scores s).2 := by
  obtain ⟨hv, hg, hok⟩ := m_div_spec s h
  by_cases hsn : sourceNodesOf s.graph = []
  · refine ⟨?_, ?_, ?_⟩
    · show (if sourceNodesOf s.graph = [] then (zeroQual, s)
        else (qualNonzero (sourceNodesOf s.graph) (m_calculate_diversity_metrics s).1,
          (m_calculate_diversity_metrics s).2)).1 = qualOf s.graph
      rw [if_pos hsn, qualOf, if_pos hsn]
    · show (if sourceNodesOf s.graph = [] then (zeroQual, s)
        else (qualNonzero (sourceNodesOf s.graph) (m_calculate_diversity_metrics s).1,
          (m_calculate_diversity_metrics s).2)).2.graph = s.graph
      rw [if_pos hsn]
    · show CacheOK (if sourceNodesOf s.graph = [] then (zeroQual, s)
        else (qualNonzero (sourceNodesOf s.graph) (m_calculate_diversity_metrics s).1,
          (m_calculate_diversity_metrics s).2)).2
      rw [if_pos hsn]
      exact h
  · refine ⟨?_, ?_, ?_⟩
    · show (if sourceNodesOf s.graph = [] then (zeroQual, s)
        else (qualNonzero (sourceNodesOf s.graph) (m_calculate_diversity_metrics s).1,
          (m_calculate_diversity_metrics s).2)).1 = qualOf s.graph
      rw [if_neg hsn, qualOf, if_neg hsn, hv]
    · show (if sourceNodesOf s.graph = [] then (zeroQual, s)
        else (qualNonzero (sourceNodesOf s.graph) (m_calculate_diversity_metrics s).1,
          (m_calculate_diversity_metrics s).2)).2.graph = s.graph
      rw [if_neg hsn]
      exact hg
    · show CacheOK (if sourceNodesOf s.graph = [] then (zeroQual, s)
        else (qualNonzero (sourceNodesOf s.graph) (m_calculate_diversity_metrics s).1,
          (m_calculate_diversity_metrics s).2)).2
      rw [if_neg hsn]
      exact hok

lemma m_flags_spec (cfg : Config) (bias : BiasMetrics) (qual : QualScores)
    (s : AState) (h : CacheOK s) :
    (m_detect_red_flags cfg bias qual s).1 = flagsFrom cfg (sourceNodesOf s.graph) bias ∧
    (m_detect_red_flags cfg bias qual s).2.graph = s.graph ∧
    CacheOK (m_detect_red_flags cfg bias qual s).2 := by
  obtain ⟨hv, hg, hok⟩ := m_src_spec s h
  refine ⟨?_, hg, hok⟩
  show flagsFrom cfg (m_get_source_nodes s).1 bias = flagsFrom cfg (sourceNodesOf s.graph) bias
  rw [hv]

lemma m_recs_spec (bias : BiasMetrics) (div : DivMetrics) (qual : QualScores)
    (flags : List RedFlag) (s : AState) (h : CacheOK s) :
    (m_generate_recommendations bias div qual flags s).1 =
      recsFrom bias div qual (sourceNodesOf s.graph) ∧
    (m_generate_recommendations bias div qual flags s).2.graph = s.graph ∧
    CacheOK (m_generate_recommendations bias div qual flags s).2 := by
  obtain ⟨hv, hg, hok⟩ := m_src_spec s h
  refine ⟨?_, hg, hok⟩
  show recsFrom bias div qual (m_get_source_nodes s).1 =
    recsFrom bias div qual (sourceNodesOf s.graph)
  rw [hv]

lemma analyze_spec (cfg : Config) (s : AState) (h : CacheOK s) :
    (analyze cfg s).1 = analyzeResult cfg s.graph ∧
    (analyze cfg s).2.graph = s.graph ∧ CacheOK (analyze cfg s).2 := by
  obtain ⟨hb, hbg, hbok⟩ := m_bias_spec s h
  obtain ⟨hd, hdg, hdok⟩ := m_div_spec (m_calculate_bias_metrics s).2 hbok
  obtain ⟨hq, hqg, hqok⟩ := m_qual_spec
    (m_calculate_diversity_metrics (m_calculate_bias_metrics s).2).2 hdok
  obtain ⟨hf, hfg, hfok⟩ := m_flags_spec cfg (m_calculate_bias_metrics s).1
    (m_calculate_quality_scores
      (m_calculate_diversity_metrics (m_calculate_bias_metrics s).2).2).1
    (m_calculate_quality_scores
      (m_calculate_diversity_metrics (m_calculate_bias_metrics s).2).2).2 hqok
  obtain ⟨hr, hrg, hrok⟩ := m_recs_spec (m_calculate_bias_metrics s).1
    (m_calculate_diversity_metrics (m_calculate_bias_metrics s).2).1
    (m_calculate_quality_scores
      (m_calculate_diversity_metrics (m_calculate_bias_metrics s).2).2).1
    (m_detect_red_flags cfg (m_calculate_bias_metrics s).1
      (m_calculate_quality_scores
        (m_calculate_diversity_metrics (m_calculate_bias_metrics s).2).2).1
      (m_calculate_quality_scores
        (m_calculate_diversity_metrics (m_calculate_bias_metrics s).2).2).2).1
    (m_detect_red_flags cfg (m_calculate_bias_metrics s).1
      (m_calculate_quality_scores
        (m_calculate_diversity_metrics (m_calculate_bias_metrics s).2).2).1
      (m_calculate_quality_scores
        (m_calculate_diversity_metrics (m_calculate_bias_metrics s).2).2).2).2 hfok
  have e2 : (m_calculate_diversity_metrics (m_calculate_bias_metrics s).2).1 =
      divFrom (sourceNodesOf s.graph) := by rw [hd, hbg]
  have e3 : (m_calculate_quality_scores
      (m_calculate_diversity_metrics (m_calculate_bias_metrics s).2).2).1 =
      qualOf s.graph := by rw [hq, hdg, hbg]
  have e4 : (m_detect_red_flags cfg (m_calculate_bias_metrics s).1
      (m_calculate_quality_scores
        (m_calculate_diversity_metrics (m_calculate_bias_metrics s).2).2).1
      (m_calculate_quality_scores
        (m_calculate_diversity_metrics (m_calculate_bias_metrics s).2).2).2).1 =
      flagsFrom cfg (sourceNodesOf s.graph) (biasFrom (sourceNodesOf s.graph)) := by
    rw [hf, hqg, hdg, hbg, hb]
  have e5 : (m_generate_recommendations (m_calculate_bias_metrics s).1
      (m_calculate_diversity_metrics (m_calculate_bias_metrics s).2).1
      (m_calculate_quality_scores
        (m_calculate_diversity_metrics (m_calculate_bias_metrics s).2).2).1
      (m_detect_red_flags cfg (m_calculate_bias_metrics s).1
        (m_calculate_quality_scores
          (m_calculate_diversity_metrics (m_calculate_bias_metrics s).2).2).1
        (m_calculate_quality_scores
          (m_calculate_diversity_metrics (m_calculate_bias_metrics s).2).2).2).1
      (m_detect_red_flags cfg (m_calculate_bias_metrics s).1
        (m_calculate_quality_scores
          (m_calculate_diversity_metrics (m_calculate_bias_metrics s).2).2).1
        (m_calculate_quality_scores
          (m_calculate_diversity_metrics (m_calculate_bias_metrics s).2).2).2).2).1 =
      recsFrom (biasFrom (sourceNodesOf s.graph)) (divFrom (sourceNodesOf s.graph))
        (qualOf s.graph) (sourceNodesOf s.graph) := by
    rw [hr, hfg, hqg, hdg, hbg, hb, e2, e3]
  refine ⟨?_, hrg.trans (hfg.trans (hqg.trans (hdg.trans hbg))), hrok⟩
  show (⟨(m_calculate_bias_metrics s).1,
      (m_calculate_diversity_metrics (m_calculate_bias_metrics s).2).1,
      (m_detect_red_flags cfg (m_calculate_bias_metrics s).1
        (m_calculate_quality_scores
          (m_calculate_diversity_metrics (m_calculate_bias_metrics s).2).2).1
        (m_calculate_quality_scores
          (m_calculate_diversity_metrics (m_calculate_bias_metrics s).2).2).2).1,
      (m_calculate_quality_scores
        (m_calculate_diversity_metrics (m_calculate_bias_metrics s).2).2).1,
      (m_generate_recommendations (m_calculate_bias_metrics s).1
        (m_calculate_diversity_metrics (m_calculate_bias_metrics s).2).1
        (m_calculate_quality_scores
          (m_calculate_diversity_metrics (m_calculate_bias_metrics s).2).2).1
        (m_detect_red_flags cfg (m_calculate_bias_metrics s).1
          (m_calculate_quality_scores
            (m_calculate_diversity_metrics (m_calculate_bias_metrics s).2).2).1
          (m_calculate_quality_scores
            (m_calculate_diversity_metrics (m_calculate_bias_metrics s).2).2).2).1
        (m_detect_red_flags cfg (m_calculate_bias_metrics s).1
          (m_calculate_quality_scores
            (m_calculate_diversity_metrics (m_calculate_bias_metrics s).2).2).1
          (m_calculate_quality_scores
            (m_calculate_diversity_metrics (m_calculate_bias_metrics s).2).2).2).2).1⟩ :
      AnalysisResult) = analyzeResult cfg s.graph
  rw [e5, e4, e3, e2, hb, analyzeResult]

/-! Support lemmas for the claim theorems. -/

lemma clamp_comm (x : ℚ) : max 0 (min 1 x) = min 1 (max 0 x) := by
  rcases le_total x 0 with h | h
  · rw [min_eq_right (h.trans zero_le_one), max_eq_left h, min_eq_right zero_le_one]
  · rcases le_total x 1 with h2 | h2
    · rw [min_eq_right h2, max_eq_right h, min_eq_right h2]
    · rw [min_eq_left h2, max_eq_right zero_le_one, max_eq_right h, min_eq_left h2]

lemma mem_ite_singleton {c : Prop} [Decidable c] {x y : α} :
    x ∈ (if c then [y] else []) ↔ x = y ∧ c := by
  by_cases h : c <;> simp [h]

lemma foldl_max_mem (l : List Nat) (b : Nat) : l.foldl max b = b ∨ l.foldl max b ∈ l := by
  induction l generalizing b with
  | nil => exact Or.inl rfl
  | cons a t ih =>
    rw [List.foldl_cons]
    rcases ih (max b a) with h | h
    · rw [h]
      rcases le_total a b with hab | hab
      · rw [max_eq_left hab]
        exact Or.inl rfl
      · rw [max_eq_right hab]
        exact Or.inr (List.mem_cons_self a t)
    · exact Or.inr (List.mem_cons_of_mem a h)

lemma maxVal_mem {l : List Nat} (h : l ≠ []) : maxVal l ∈ l := by
  rcases foldl_max_mem l 0 with h0 | h0
  · obtain ⟨a, t, rfl⟩ := List.exists_cons_of_ne_nil h
    have ha : a ≤ maxVal (a :: t) := le_maxVal_of_mem (List.mem_cons_self a t)
    rw [maxVal] at *
    rw [h0] at ha ⊢
    have : a = 0 := Nat.le_zero.mp ha
    rw [← this]
    exact List.mem_cons_self a t
  · exact h0

lemma firstMaxKey_some {l : List (Str × Nat)} (h : l ≠ []) :
    ∃ k, firstMaxKey l = some k := by
  have hmem : maxVal (l.map Prod.snd) ∈ l.map Prod.snd :=
    maxVal_mem (by simpa using h)
  obtain ⟨p, hp, hpe⟩ := List.mem_map.mp hmem
  have hfind : (l.find? (fun q => q.2 = maxVal (l.map Prod.snd))).isSome := by
    rw [List.find?_isSome]
    exact ⟨p, hp, by simp [hpe]⟩
  obtain ⟨q, hq⟩ := Option.isSome_iff_exists.mp hfind
  exact ⟨q.1, by rw [firstMaxKey, hq]; rfl⟩

lemma biasFrom_eval (source_nodes : List (Str × NodeAttrs)) (h : source_nodes ≠ []) :
    (biasFrom source_nodes).source_concentration = (bTDP source_nodes + bSCR source_nodes) / 2 ∧
    (biasFrom source_nodes).single_cluster_risk = bSCR source_nodes ∧
    (biasFrom source_nodes).top_domain_percentage = bTDP source_nodes := by
  rw [biasFrom, if_neg h]
  exact ⟨rfl, rfl, rfl⟩

lemma mem_flagsFrom_conc (cfg : Config) (source_nodes : List (Str × NodeAttrs))
    (bias : BiasMetrics) :
    (⟨"high_source_concentration", "high"⟩ : RedFlag) ∈ flagsFrom cfg source_nodes bias ↔
      bias.source_concentration > cfg.bias_threshold := by
  unfold flagsFrom
  simp [List.mem_append, mem_ite_singleton, RedFlag.mk.injEq]

lemma countsOf_ne_nil [DecidableEq α] {l : List α} (h : l ≠ []) : countsOf l ≠ [] := by
  obtain ⟨a, t, rfl⟩ := List.exists_cons_of_ne_nil h
  rw [countsOf, dedupKeys, dedupAux]
  rw [if_neg (List.not_mem_nil a)]
  simp

/-- Shared evaluation: the diversity score of the one-element domain list
`["a.com"]` is 0.5 (one unique domain out of one, concentration 1). -/
lemma diversity_single : calculate_diversity_score [str "a.com"] = 1 / 2 := by
  unfold calculate_diversity_score
  rw [if_neg (by decide : ¬([str "a.com"] = []))]
  simp only []
  rw [show countsOf ([str "a.com"].map normalize_domain) = [(str "a.com", 1)] from by decide]
  norm_num [maxVal]

/-- C1: every edge that `build_graph` adds carries the weight
`clamp01(reliability + diversityBoost + typeBoost)` of some citation with
the edge's target URL, where the diversity boost (diversity score of the
article's full domain list times 0.2) and the type boost
(`min(0.1, uniqueTypes*0.02)` over the full citation set) depend only on
the article, so edges of one article differ only in base reliability. -/
theorem C1_edge_weight_formula (a : ArticleData) (e : Edge)
    (he : e ∈ (build_graph a).edges) :
    ∃ c ∈ a.citations, c.url = e.tgt ∧ e.weight = spec_edge_weight a c := by
  refine build_fold_edge_inv a a.citations _ (fun c hc => hc) ?_ e he
  intro e' he'
  exact absurd he' (List.not_mem_nil e')

/-- C1 witness: the edge of the one-citation article `aW`. -/
theorem C1_edge_weight_formula_witness :
    eW ∈ (build_graph aW).edges ∧
    ∃ c ∈ aW.citations, c.url = eW.tgt ∧ eW.weight = spec_edge_weight aW c := by
  have hmem : eW ∈ (build_graph aW).edges := by
    rw [show (build_graph aW).edges = [eW] from rfl]
    exact List.mem_singleton_self eW
  exact ⟨hmem, C1_edge_weight_formula aW eW hmem⟩

/-- C2 counterexample: when a citation's URL equals the article URL,
`add_edge` creates a self-loop on the article node and no source node,
so the built graph has one edge but zero source nodes. -/
theorem C2_counterexample :
    (build_graph aSelf).edges.length = 1 ∧
    (sourceNodesOf (build_graph aSelf)).length = 0 := by
  exact ⟨rfl, rfl⟩

/-- C2 amended: if no citation URL equals the article URL, the built
graph has exactly as many edges as source nodes. -/
theorem C2_amended (a : ArticleData) (h : ∀ c ∈ a.citations, c.url ≠ a.url) :
    (sourceNodesOf (build_graph a)).length = (build_graph a).edges.length := by
  apply sourceNodes_of_inv a
  refine build_fold_inv a a.citations _ h ⟨[], rfl, ?_, ?_, ?_⟩
  · intro p hp
    cases hp
  · simp
  · intro e he
    cases he

/-- C2 witness: the one-citation article `aW` satisfies the no-self-link
hypothesis and the edge/source-node counts agree. -/
theorem C2_amended_witness :
    (∀ c ∈ aW.citations, c.url ≠ aW.url) ∧
    (sourceNodesOf (build_graph aW)).length = (build_graph aW).edges.length :=
  ⟨by decide, C2_amended aW (by decide)⟩

/-- C3 counterexample: on `textC3` the extractor keeps both
`https://a.com/` and `https://a.com`, two citations whose URLs are equal
after stripping trailing punctuation and the trailing slash — the
trailing slash is not stripped before the dedup comparison. -/
theorem C3_counterexample :
    (extract_citations_from_text textC3).map (fun c => c.url) =
      [str "https://a.com/", str "https://a.com"] ∧
    ¬ ((extract_citations_from_text textC3).map
        (fun c => rstripSlash (rstripPunct c.url))).Nodup := by
  exact ⟨by decide, by decide⟩

/-- C3 amended: the text extractor normalizes captured URLs by stripping
trailing punctuation only (no slash), so no two of its citations share a
punctuation-stripped URL and its length is bounded by the raw match
count; the trailing-slash comparison happens only in the ingester's
second dedup stage, after which no two citations share a slash-stripped
URL. -/
theorem C3_amended (text : Str) :
    ((extract_citations_from_text text).map (fun c => rstripPunct c.url)).Nodup ∧
    (extract_citations_from_text text).length ≤ rawMatchCount text ∧
    ∀ cs : List Citation,
      ((ingesterDedup cs).map (fun c => rstripSlash c.url)).Nodup := by
  refine ⟨?_, extract_length_le text, ?_⟩
  · have heq : (extract_citations_from_text text).map (fun c => rstripPunct c.url) =
        (extract_citations_from_text text).map (fun c => c.url) :=
      List.map_congr_left (fun c hc => extract_urls_stripped text c hc)
    rw [heq]
    exact extract_urls_nodup text
  · intro cs
    exact (ingDedupAux_spec cs []).1

/-- C4 counterexample: the diversity score of `["a.com"]` is 0.5 (the
concentration penalty applies), not 1.0 as claimed. -/
theorem C4_counterexample :
    calculate_diversity_score [str "a.com"] = 1 / 2 ∧
    ¬ calculate_diversity_score [str "a.com"] = 1 := by
  refine ⟨diversity_single, ?_⟩
  rw [diversity_single]
  norm_num

/-- C4 amended: the diversity score is 0.0 on the empty list and 0.5 on
the single-element list `["a.com"]`. -/
theorem C4_amended :
    calculate_diversity_score [] = 0 ∧
    calculate_diversity_score [str "a.com"] = 1 / 2 :=
  ⟨rfl, diversity_single⟩

/-- C5: for every URL, category, score table and trusted-suffix set, the
reliability score equals the clamped sum of the per-category base score
(default 0.5), a fixed 0.1 bonus for a trusted public suffix, and a
fixed −0.2 penalty for a low-trust hosting substring; the result always
lies in [0, 1]. -/
theorem C5_reliability_formula (scores : List (String × ℚ)) (trusted : List Str)
    (url : Str) (source_type : String) :
    calculate_reliability_score scores trusted url source_type =
      clamp01 ((((scores.find? (fun p => p.1 = source_type)).map Prod.snd).getD (1 / 2)) +
        (if (tldSplit (extract_domain url)).2 ∈ trusted then 1 / 10 else 0) -
        (if suspiciousHosts.any (fun s => isSubList s (toLowerStr (extract_domain url))) then
          2 / 10 else 0)) ∧
    0 ≤ calculate_reliability_score scores trusted url source_type ∧
    calculate_reliability_score scores trusted url source_type ≤ 1 := by
  refine ⟨?_, ?_, ?_⟩
  · unfold calculate_reliability_score clamp01
    rw [clamp_comm]
    congr 1
    congr 1
    by_cases ht : (tldSplit (extract_domain url)).2 ∈ trusted <;>
      by_cases hs : suspiciousHosts.any
        (fun s => isSubList s (toLowerStr (extract_domain url))) = true <;>
      simp [ht, hs]
  · unfold calculate_reliability_score
    exact le_max_left 0 _
  · unfold calculate_reliability_score
    exact max_le (by norm_num) (min_le_left 1 _)

/-- C6: on a graph with zero source nodes (and a positive
`MIN_CITATIONS`), `analyze` returns the defined zero-value bias,
diversity and quality dicts — in particular `overall_quality = 0.0` and
no division by zero — and its red-flag list contains
`insufficient_citations` with severity `high`. -/
theorem C6_empty_graph (cfg : Config) (g : Graph)
    (hempty : sourceNodesOf g = []) (hmin : 0 < cfg.min_citations) :
    (analyze cfg (initState g)).1.quality_scores = zeroQual ∧
    (analyze cfg (initState g)).1.bias_metrics = zeroBias ∧
    (analyze cfg (initState g)).1.diversity_metrics = zeroDiv ∧
    (analyze cfg (initState g)).1.quality_scores.overall_quality = 0 ∧
    (⟨"insufficient_citations", "high"⟩ : RedFlag) ∈
      (analyze cfg (initState g)).1.red_flags := by
  obtain ⟨h1, -, -⟩ := analyze_spec cfg (initState g) (cacheOK_init g)
  rw [h1, show (initState g).graph = g from rfl]
  simp only [analyzeResult]
  refine ⟨?_, ?_, ?_, ?_, ?_⟩
  · rw [qualOf, if_pos hempty]
  · rw [hempty]
    rfl
  · rw [hempty]
    rfl
  · rw [qualOf, if_pos hempty]
    rfl
  · rw [hempty]
    unfold flagsFrom
    have hA : (⟨"insufficient_citations", "high"⟩ : RedFlag) ∈
        (if ([] : List (Str × NodeAttrs)).length < cfg.min_citations then
          [(⟨"insufficient_citations", "high"⟩ : RedFlag)] else []) := by
      rw [if_pos (by simpa using hmin)]
      exact List.mem_singleton_self _
    exact List.mem_append_left _ (List.mem_append_left _
      (List.mem_append_left _ (List.mem_append_left _ hA)))

/-- C6 witness: the single-article graph with no source nodes and
`MIN_CITATIONS = 3`. -/
theorem C6_empty_graph_witness :
    sourceNodesOf gEmpty = [] ∧ 0 < cfg7.min_citations ∧
    ((analyze cfg7 (initState gEmpty)).1.quality_scores = zeroQual ∧
     (analyze cfg7 (initState gEmpty)).1.bias_metrics = zeroBias ∧
     (analyze cfg7 (initState gEmpty)).1.diversity_metrics = zeroDiv ∧
     (analyze cfg7 (initState gEmpty)).1.quality_scores.overall_quality = 0 ∧
     (⟨"insufficient_citations", "high"⟩ : RedFlag) ∈
       (analyze cfg7 (initState gEmpty)).1.red_flags) :=
  ⟨by decide, by decide, C6_empty_graph cfg7 gEmpty (by decide) (by decide)⟩

/-- C9: on a graph with zero source nodes the red-flag list also
contains `missing_viewpoint_diversity` with severity `medium` (academic,
government and news are all absent), so together with
`insufficient_citations` the empty graph yields at least two flags. -/
theorem C9_missing_viewpoint (cfg : Config) (g : Graph)
    (hempty : sourceNodesOf g = []) (hmin : 0 < cfg.min_citations) :
    (⟨"missing_viewpoint_diversity", "medium"⟩ : RedFlag) ∈
      (analyze cfg (initState g)).1.red_flags ∧
    2 ≤ (analyze cfg (initState g)).1.red_flags.length := by
  obtain ⟨h1, -, -⟩ := analyze_spec cfg (initState g) (cacheOK_init g)
  rw [h1, show (initState g).graph = g from rfl]
  simp only [analyzeResult]
  rw [hempty]
  unfold flagsFrom
  constructor
  · apply List.mem_append_right
    rw [if_pos (by decide :
      (["academic", "government", "news"].filter
        (fun t => t ∉ ([] : List (Str × NodeAttrs)).map
          (fun p => stypeOf "other" p.2))) ≠ [])]
    exact List.mem_singleton_self _
  · rw [if_pos (show ([] : List (Str × NodeAttrs)).length < cfg.min_citations from
      by simpa using hmin)]
    rw [if_pos (by decide :
      (["academic", "government", "news"].filter
        (fun t => t ∉ ([] : List (Str × NodeAttrs)).map
          (fun p => stypeOf "other" p.2))) ≠ [])]
    simp only [List.length_append, List.length_cons, List.length_nil]
    omega

/-- C9 witness: the empty-source graph and `MIN_CITATIONS = 3`. -/
theorem C9_missing_viewpoint_witness :
    sourceNodesOf gEmpty = [] ∧ 0 < cfg7.min_citations ∧
    ((⟨"missing_viewpoint_diversity", "medium"⟩ : RedFlag) ∈
       (analyze cfg7 (initState gEmpty)).1.red_flags ∧
     2 ≤ (analyze cfg7 (initState gEmpty)).1.red_flags.length) :=
  ⟨by decide, by decide, C9_missing_viewpoint cfg7 gEmpty (by decide) (by decide)⟩

/-- C10: the key list of the bias-metrics dict returned by `analyze` is
exactly the four base keys on a graph with zero source nodes, and
additionally `top_domain`, `domain_distribution` and
`source_type_distribution` (in dict insertion order) otherwise. -/
theorem C10_bias_keys (cfg : Config) (g : Graph) :
    biasKeys (analyze cfg (initState g)).1.bias_metrics =
      if sourceNodesOf g = [] then
        ["source_concentration", "single_cluster_risk", "top_domain_percentage",
         "ideological_cluster_score"]
      else
        ["source_concentration", "single_cluster_risk", "top_domain_percentage",
         "top_domain", "domain_distribution", "source_type_distribution",
         "ideological_cluster_score"] := by
  obtain ⟨h1, -, -⟩ := analyze_spec cfg (initState g) (cacheOK_init g)
  rw [h1, show (initState g).graph = g from rfl]
  simp only [analyzeResult]
  by_cases hsn : sourceNodesOf g = []
  · rw [if_pos hsn, hsn]
    rfl
  · rw [if_neg hsn]
    rw [biasFrom, if_neg hsn]
    obtain ⟨k, hk⟩ := firstMaxKey_some
      (countsOf_ne_nil (by simpa using hsn) :
        countsOf ((sourceNodesOf g).map (fun p => domainOf (str "unknown") p.2)) ≠ [])
    simp only [biasKeys, hk]
    rfl

/-- C7 counterexample: a graph with 10 source nodes, 9 sharing one
domain but with 10 pairwise distinct source types, has
`source_concentration = (0.9 + 0.1)/2 = 0.5`, which is not strictly
greater than `BIAS_THRESHOLD = 0.5`, so no `high_source_concentration`
flag is raised. -/
theorem C7_counterexample :
    cfg7.bias_threshold = 1 / 2 ∧
    (sourceNodesOf gC7).length = 10 ∧
    occCount ((sourceNodesOf gC7).map (fun p => domainOf (str "unknown") p.2))
      (str "d") = 9 ∧
    (⟨"high_source_concentration", "high"⟩ : RedFlag) ∉
      (analyze cfg7 (initState gC7)).1.red_flags := by
  refine ⟨rfl, by decide, by decide, ?_⟩
  obtain ⟨h1, -, -⟩ := analyze_spec cfg7 (initState gC7) (cacheOK_init gC7)
  rw [h1, show (initState gC7).graph = gC7 from rfl]
  simp only [analyzeResult]
  rw [mem_flagsFrom_conc]
  have hne : sourceNodesOf gC7 ≠ [] := by decide
  rw [(biasFrom_eval _ hne).1]
  have h9 : maxVal ((countsOf ((sourceNodesOf gC7).map
      (fun p => domainOf (str "unknown") p.2))).map Prod.snd) = 9 := by decide
  have h1t : maxVal ((countsOf ((sourceNodesOf gC7).map
      (fun p => stypeOf "other" p.2))).map Prod.snd) = 1 := by decide
  have hlen : ((sourceNodesOf gC7).map
      (fun p => domainOf (str "unknown") p.2)).length = 10 := by decide
  unfold bTDP bSCR
  rw [hlen, h9, h1t]
  rw [if_pos (by norm_num : (0 : Nat) < 10), if_pos (by norm_num : (0 : Nat) < 10)]
  show ¬ (((9 : Nat) : ℚ) / ((10 : Nat) : ℚ) + ((1 : Nat) : ℚ) / ((10 : Nat) : ℚ)) / 2 >
    cfg7.bias_threshold
  rw [show cfg7.bias_threshold = 1 / 2 from rfl]
  push_cast
  norm_num

/-- C7 amended: with `BIAS_THRESHOLD = 0.5`, a graph with exactly 10
source nodes of which 9 share the same domain raises the
`high_source_concentration` flag provided additionally that some source
type occurs at least twice (otherwise the concentration is exactly 0.5
and the strict comparison fails). -/
theorem C7_amended (cfg : Config) (g : Graph) (d : Str) (t : String)
    (hthr : cfg.bias_threshold = 1 / 2)
    (hlen : (sourceNodesOf g).length = 10)
    (hdom : occCount ((sourceNodesOf g).map (fun p => domainOf (str "unknown") p.2)) d = 9)
    (htyp : 2 ≤ occCount ((sourceNodesOf g).map (fun p => stypeOf "other" p.2)) t) :
    (⟨"high_source_concentration", "high"⟩ : RedFlag) ∈
      (analyze cfg (initState g)).1.red_flags := by
  obtain ⟨h1, -, -⟩ := analyze_spec cfg (initState g) (cacheOK_init g)
  rw [h1, show (initState g).graph = g from rfl]
  simp only [analyzeResult]
  rw [mem_flagsFrom_conc, hthr]
  have hne : sourceNodesOf g ≠ [] := by
    intro h0
    rw [h0] at hlen
    simp at hlen
  rw [(biasFrom_eval _ hne).1]
  have hmemd : d ∈ (sourceNodesOf g).map (fun p => domainOf (str "unknown") p.2) :=
    mem_of_occCount_pos (by omega)
  have hmemt : t ∈ (sourceNodesOf g).map (fun p => stypeOf "other" p.2) :=
    mem_of_occCount_pos (by omega)
  have hmd : 9 ≤ maxVal ((countsOf ((sourceNodesOf g).map
      (fun p => domainOf (str "unknown") p.2))).map Prod.snd) := by
    have := occCount_le_maxVal_counts _ d hmemd
    omega
  have hmt : 2 ≤ maxVal ((countsOf ((sourceNodesOf g).map
      (fun p => stypeOf "other" p.2))).map Prod.snd) := by
    have := occCount_le_maxVal_counts _ t hmemt
    omega
  have hlen' : ((sourceNodesOf g).map
      (fun p => domainOf (str "unknown") p.2)).length = 10 := by
    rw [List.length_map, hlen]
  unfold bTDP bSCR
  rw [hlen']
  rw [if_pos (by norm_num : (0 : Nat) < 10), if_pos (by norm_num : (0 : Nat) < 10)]
  have hq1 : (9 : ℚ) ≤ ((maxVal ((countsOf ((sourceNodesOf g).map
      (fun p => domainOf (str "unknown") p.2))).map Prod.snd) : Nat) : ℚ) := by
    exact_mod_cast hmd
  have hq2 : (2 : ℚ) ≤ ((maxVal ((countsOf ((sourceNodesOf g).map
      (fun p => stypeOf "other" p.2))).map Prod.snd) : Nat) : ℚ) := by
    exact_mod_cast hmt
  have h10 : ((10 : Nat) : ℚ) = 10 := by norm_num
  rw [h10, gt_iff_lt]
  linarith

/-- C7 witness: ten source nodes, nine sharing both the domain and the
source type, with `BIAS_THRESHOLD = 0.5`. -/
theorem C7_amended_witness :
    cfg7.bias_threshold = 1 / 2 ∧
    (sourceNodesOf gW7).length = 10 ∧
    occCount ((sourceNodesOf gW7).map (fun p => domainOf (str "unknown") p.2))
      (str "d") = 9 ∧
    2 ≤ occCount ((sourceNodesOf gW7).map (fun p => stypeOf "other" p.2)) "t" ∧
    (⟨"high_source_concentration", "high"⟩ : RedFlag) ∈
      (analyze cfg7 (initState gW7)).1.red_flags :=
  ⟨rfl, by decide, by decide, by decide,
   C7_amended cfg7 gW7 (str "d") "t" rfl (by decide) (by decide) (by decide)⟩

/-- C8: `analyze` is idempotent — a second call on the unmodified graph
(with the instance state left by the first call, including the populated
source-node cache) returns a result identical to the first call's. -/
theorem C8_idempotent (cfg : Config) (g : Graph) :
    (analyze cfg (analyze cfg (initState g)).2).1 = (analyze cfg (initState g)).1 := by
  obtain ⟨h1, h1g, h1ok⟩ := analyze_spec cfg (initState g) (cacheOK_init g)
  obtain ⟨h2, h2g, -⟩ := analyze_spec cfg (analyze cfg (initState g)).2 h1ok
  rw [h2, h1, h1g]
